import Mathlib

/-!
Shallow embedding of `src/generate_excel.py` (PALOB-network-design):
a single-pass converter from an OpenIntent JSON export (a list of
access-point records) to a spreadsheet workbook with one sheet per floor.

Strings are modelled at the level of their character lists (ASCII scope,
which covers every string operation the program performs on its inputs).
JSON numbers are modelled as rationals; the 1-decimal float formatting
`f"{v:.1f}"` is modelled as round-half-even to tenths.  Fallible steps
(coordinate formatting on a malformed object, duplicate sheet titles)
return `Except`.
-/

/-! ### Character and string helpers (Python semantics, ASCII scope) -/

/-- ASCII whitespace: the characters stripped by `str.strip()` and matched
by the regex class `\s` (ASCII range). -/
def isPySpace (c : Char) : Bool :=
  c = ' ' || c = '\t' || c = '\n' || c = '\r' || c = '\x0b' || c = '\x0c'

/-- Python `str.strip()`: drop leading and trailing whitespace. -/
def pyStrip (s : List Char) : List Char :=
  ((s.dropWhile isPySpace).reverse.dropWhile isPySpace).reverse

/-- Helper for `pyTitle`: the boolean records whether the previous character
was a cased (alphabetic) character. -/
def pyTitleGo : Bool → List Char → List Char
  | _, [] => []
  | prevCased, c :: rest =>
    if c.isAlpha then
      (if prevCased then c.toLower else c.toUpper) :: pyTitleGo true rest
    else
      c :: pyTitleGo false rest

/-- Python `str.title()`: the first character of every maximal alphabetic
run is uppercased, the rest of the run is lowercased. -/
def pyTitle (s : List Char) : List Char := pyTitleGo false s

/-- Python `str.upper()` (ASCII). -/
def pyUpper (s : List Char) : List Char := s.map Char.toUpper

/-- Python `str.lower()` (ASCII). -/
def pyLower (s : List Char) : List Char := s.map Char.toLower

/-- Python `str.replace(old, new)` specialised to a single-character
pattern, as in `model_raw.upper().replace("C", "C-")`: every occurrence
of `old` is replaced by `new`. -/
def replaceChar (old : Char) (new : List Char) : List Char → List Char
  | [] => []
  | c :: rest =>
    if c = old then new ++ replaceChar old new rest
    else c :: replaceChar old new rest

/-! ### Decimal rendering of naturals and the `03d` format -/

/-- Big-endian decimal digits of `n`; the first argument is structural fuel
(`n` itself suffices).  `decDigitsAux fuel 0 = []`. -/
def decDigitsAux : Nat → Nat → List Nat
  | 0, _ => []
  | _ + 1, 0 => []
  | fuel + 1, n + 1 => decDigitsAux fuel ((n + 1) / 10) ++ [(n + 1) % 10]

/-- Big-endian decimal digits of `n` (empty for `0`). -/
def decDigits (n : Nat) : List Nat := decDigitsAux n n

/-- The Python format spec `03d`: decimal digits of `n`, left-padded with
zeros to a width of at least 3 (so `1 ↦ "001"`, `1000 ↦ "1000"`). -/
def pad3 (n : Nat) : String :=
  String.mk ((List.replicate (3 - (decDigits n).length) 0 ++ decDigits n).map Nat.digitChar)

/-! ### 1-decimal number formatting (`f"{v:.1f}"`) -/

/-- Round `10 * q` to the nearest integer, ties to even — the rounding
performed by Python's fixed-point formatting at 1 decimal place.
Computed on the numerator and denominator so that it evaluates by kernel
reduction. -/
def roundHalfEvenTenths (q : ℚ) : ℤ :=
  let n : ℤ := q.num * 10
  let d : ℤ := (q.den : ℤ)
  let f := n / d
  let r := n % d
  if 2 * r < d then f
  else if d < 2 * r then f + 1
  else if f % 2 = 0 then f else f + 1

/-- Python `f"{v:.1f}"`: the value rounded (half-to-even) to one decimal
place, rendered with exactly one digit after the point. -/
def format1 (q : ℚ) : String :=
  let t := roundHalfEvenTenths q
  let sgn := if t < 0 then "-" else ""
  let m := t.natAbs
  sgn ++ toString (m / 10) ++ "." ++ toString (m % 10)

/-! ### Data model -/

/-- The value of a record's `coordinate_xyz` key: JSON `null` or an object
whose fields are numeric (the claims under scrutiny only involve numeric
field values). -/
inductive JCoord where
  | jnull : JCoord
  | jobj (fields : List (String × ℚ)) : JCoord
deriving DecidableEq, Repr

/-- One access-point record of the input JSON's `accesspoints` list.
`none` models an absent key. -/
structure AP where
  model : Option String
  floorplan_name : Option String
  coordinate_xyz : Option JCoord
deriving DecidableEq, Repr

/-- `ap.get("floorplan_name", "Unknown Floor")`. -/
def floorKey (ap : AP) : String := ap.floorplan_name.getD "Unknown Floor"

/-- Python `dict.get`: first association for the key, if any. -/
def lookupField (k : String) : List (String × ℚ) → Option ℚ
  | [] => none
  | (k', v) :: rest => if k' = k then some v else lookupField k rest

/-- `ap.get("coordinate_xyz") or {}`: an absent key and the falsy values
(`null`, the empty object) all collapse to the empty object. -/
def coordFields (ap : AP) : List (String × ℚ) :=
  match ap.coordinate_xyz with
  | none => []
  | some .jnull => []
  | some (.jobj fs) => fs

/-- The notes cell:
`f"x={coord.get('x'):.1f}, y={coord.get('y'):.1f}" if coord else ""`.
Formatting `None` (a missing `x` or `y`) raises `TypeError` in Python,
modelled as `Except.error`. -/
def coordNote (ap : AP) : Except String String :=
  let coord := coordFields ap
  if coord.isEmpty then .ok ""
  else
    match lookupField "x" coord, lookupField "y" coord with
    | some x, some y => .ok ("x=" ++ format1 x ++ ", y=" ++ format1 y)
    | _, _ => .error "TypeError: unsupported format string passed to NoneType.__format__"

/-- Model normalisation (lines 94–96 of the source):
`model_raw.upper().replace("C", "C-") if model_raw.lower().startswith("c")
and "-" not in model_raw else model_raw.upper()`. -/
def normaliseModel (model_raw : String) : String :=
  if (pyLower model_raw.data).head? = some 'c' ∧ ¬ '-' ∈ model_raw.data then
    ⟨replaceChar 'C' ['C', '-'] (pyUpper model_raw.data)⟩
  else
    ⟨pyUpper model_raw.data⟩

/-- The fixed header row (trailing empty columns removed). -/
def HEADER : List String :=
  ["Placement Number", "AP Model", "Antenna Type", "Antenna Vendor",
   "Antenna Model", "Mount Type", "Mounting Bracket", "Mounting Adapter",
   "AP in Enclosure?", "Enclosure Model", "Antenna in Enclosure?",
   "Direction *", "Downtilt *", "Notes"]

/-- One data row: the loop body of lines 91–115.  `counter` is the current
value of the global placement counter; the only fallible part is the
coordinate note. -/
def buildRow (counter : Nat) (ap : AP) : Except String (List String) :=
  match coordNote ap with
  | .error e => .error e
  | .ok coord_note =>
    .ok ["AP-" ++ pad3 counter,
         normaliseModel (ap.model.getD ""),
         "Internal Omni", "N/A", "N/A", "Hard Ceiling",
         "<insert mounting bracket model>", "<insert mounting adapter model>",
         "No", "N/A", "N/A", "N/A", "N/A",
         coord_note]

/-! ### Sheet-name normalisation -/

/-- Two leading characters forming one of the ordinal suffixes
`st|nd|rd|th`, case-insensitively. -/
def hasOrdinalSuffix (l : List Char) : Bool :=
  match l with
  | a :: b :: _ =>
    let p := [a.toLower, b.toLower]
    p = ['s', 't'] || p = ['n', 'd'] || p = ['r', 'd'] || p = ['t', 'h']
  | _ => false

/-- The anchored regex `^(\d+)(?:st|nd|rd|th)?\s+Floor$` with `re.I`:
returns the digits of group 1 on a match.  The regex is deterministic on
every input: after the digits, an ordinal suffix (two letters) and the
required whitespace are mutually exclusive, so no backtracking case is
lost. -/
def matchFloor (s : List Char) : Option (List Char) :=
  let ds := s.takeWhile Char.isDigit
  if ds.isEmpty then none
  else
    let r1 := s.dropWhile Char.isDigit
    let r2 := if hasOrdinalSuffix r1 then r1.drop 2 else r1
    if (r2.takeWhile isPySpace).isEmpty then none
    else
      let r3 := r2.dropWhile isPySpace
      if r3.map Char.toLower = ['f', 'l', 'o', 'o', 'r'] then some ds else none

/-- Lines 42–50 of the source: `FLOOR_RE.match(name.strip())` yields
`f"Floor {match.group(1)}"`, otherwise `name.title()[:31]`. -/
def normalise_sheet_name (name : String) : String :=
  match matchFloor (pyStrip name.data) with
  | some ds => "Floor " ++ ⟨ds⟩
  | none => ⟨(pyTitle name.data).take 31⟩

/-! ### Grouping by floor -/

/-- One step of filling the insertion-ordered `defaultdict(list)`:
`by_floor[ap.get("floorplan_name", "Unknown Floor")].append(ap)`. -/
def groupStep (acc : List (String × List AP)) (ap : AP) : List (String × List AP) :=
  if acc.any (fun p => p.1 = floorKey ap) then
    acc.map (fun p => if p.1 = floorKey ap then (p.1, p.2 ++ [ap]) else p)
  else
    acc ++ [(floorKey ap, [ap])]

/-- Lines 70–74: group the access points by floor, keys in insertion
order (Python dicts preserve it). -/
def groupByFloor (aps : List AP) : List (String × List AP) :=
  aps.foldl groupStep []

/-- Spec-side definition: the distinct floor names of the input, in the
order in which each first appears. -/
def floorsFirstSeen (aps : List AP) : List String :=
  aps.foldl (fun ks ap => if floorKey ap ∈ ks then ks else ks ++ [floorKey ap]) []

/-! ### Workbook assembly -/

/-- One worksheet: a title and its rows (the header is `rows.head`). -/
structure Worksheet where
  title : String
  rows : List (List String)
deriving DecidableEq, Repr

/-- The workbook: its worksheets in creation order (the default sheet is
removed before any floor sheet is created). -/
structure Workbook where
  sheets : List Worksheet
deriving DecidableEq, Repr

/-- The two uncaught run-time failures of the per-floor loop. -/
inductive BuildError where
  | duplicateName (title : String) : BuildError
  | typeError (msg : String) : BuildError
deriving DecidableEq, Repr

/-- Rows for one floor's access points, threading the global placement
counter (`for idx, ap in enumerate(aps_on_floor, …)`). -/
def addRows (counter : Nat) : List AP → Except BuildError (List (List String) × Nat)
  | [] => .ok ([], counter)
  | ap :: rest =>
    match buildRow counter ap with
    | .error e => .error (.typeError e)
    | .ok row =>
      match addRows (counter + 1) rest with
      | .error e => .error e
      | .ok (rows, c) => .ok (row :: rows, c)

/-- The body of the per-floor loop (lines 79–118): create the sheet,
append the header, then one row per access point.  Modelled from the
spec: `wb.create_sheet` is openpyxl code, absent from this repository;
per the spec it fails with a `DuplicateNameError` when the normalised
title collides with an existing sheet, and the tool itself performs no
collision check. -/
def processFloor (acc : Workbook × Nat) (g : String × List AP) :
    Except BuildError (Workbook × Nat) :=
  let sheet_name := normalise_sheet_name g.1
  if acc.1.sheets.any (fun ws => ws.title = sheet_name) then
    .error (.duplicateName sheet_name)
  else
    match addRows acc.2 g.2 with
    | .error e => .error e
    | .ok (rows, c) =>
      .ok (⟨acc.1.sheets ++ [⟨sheet_name, HEADER :: rows⟩]⟩, c)

/-- The per-floor loop over the groups, in insertion order. -/
def processFloors : Workbook × Nat → List (String × List AP) →
    Except BuildError (Workbook × Nat)
  | st, [] => .ok st
  | st, g :: gs =>
    match processFloor st g with
    | .error e => .error e
    | .ok st' => processFloors st' gs

/-- Lines 76–121: an empty workbook (default sheet removed), the global
placement counter starting at 1, then the per-floor loop. -/
def buildWorkbook (aps : List AP) : Except BuildError Workbook :=
  match processFloors (⟨[]⟩, 1) (groupByFloor aps) with
  | .error e => .error e
  | .ok (wb, _) => .ok wb

/-- The failures `main` can end in before a workbook is saved. -/
inductive RunError where
  | emptyInput : RunError
  | buildFailed (e : BuildError) : RunError
deriving DecidableEq, Repr

/-- The process exit code for each failure: `sys.exit(1)` for the empty
input; an uncaught exception also terminates with status 1. -/
def exitCode : RunError → Nat
  | .emptyInput => 1
  | .buildFailed _ => 1

/-- `main` after JSON parsing (lines 64–121): `data.get("accesspoints", [])`,
the empty-input guard, then workbook construction.  `none` models an
absent `accesspoints` key.  A `.ok` result is the workbook that is saved;
any `.error` means the process exits without writing a file. -/
def run (accesspoints : Option (List AP)) : Except RunError Workbook :=
  let aps := accesspoints.getD []
  if aps.isEmpty then .error .emptyInput
  else
    match buildWorkbook aps with
    | .error e => .error (.buildFailed e)
    | .ok wb => .ok wb

/-- The placement-number cells of all data rows of the workbook, sheet by
sheet, in order (the first row of each sheet is the header). -/
def placements (wb : Workbook) : List String :=
  ((wb.sheets.map (fun ws => ws.rows.drop 1)).flatten).map (fun r => r.headD "")

/-! ### Spec-side comparison definitions -/

/-- Spec-side definition for the amended model-normalisation claim: the
uppercased string with a hyphen inserted after every occurrence of `C`. -/
def insertHyphenAfterEachC : List Char → List Char
  | [] => []
  | c :: rest =>
    if c = 'C' then 'C' :: '-' :: insertHyphenAfterEachC rest
    else c :: insertHyphenAfterEachC rest

/-! ### Concrete inputs used in examples and witnesses -/

/-- The rational 1, in reduced constructor form (kernel-evaluable). -/
def qOne : ℚ := ⟨1, 1, by decide, by decide⟩

/-- A record with a floor name only. -/
def apLobby : AP := ⟨none, some "Lobby", none⟩

/-- The workbook the tool produces for the single record `apLobby`. -/
def wbLobby : Workbook :=
  ⟨[⟨"Lobby", [HEADER,
    ["AP-001", "", "Internal Omni", "N/A", "N/A", "Hard Ceiling",
     "<insert mounting bracket model>", "<insert mounting adapter model>",
     "No", "N/A", "N/A", "N/A", "N/A", ""]]⟩]⟩

/-- A record carrying the spec's example coordinates x = 12.34, y = 5.6. -/
def apCoords : AP :=
  ⟨some "c9130", some "1st Floor", some (.jobj [("x", (12.34 : ℚ)), ("y", (5.6 : ℚ))])⟩

/-- Two records whose distinct raw floor names "A" and "a" normalise to the
same sheet title, the first carrying a coordinate object without x/y. -/
def apsClash : List AP :=
  [⟨none, some "A", some (.jobj [("z", qOne)])⟩, ⟨none, some "a", none⟩]

/-- Two well-formed records on the colliding floor names "A" and "a". -/
def apsAa : List AP := [⟨none, some "A", none⟩, ⟨none, some "a", none⟩]

/-- A record with no floorplan name at all. -/
def apNoFloor : AP := ⟨none, none, none⟩

/-- A record lacking a model whose coordinate object has no x or y. -/
def apBadCoord : AP := ⟨none, some "F", some (.jobj [("z", qOne)])⟩

/-- A record lacking a model, with well-formed (absent) coordinates. -/
def apOnlyFloor : AP := ⟨none, some "G", none⟩

/-! ### Lemmas: decimal digits and `pad3` injectivity -/

lemma decDigitsAux_zero (fuel : Nat) : decDigitsAux fuel 0 = [] := by
  cases fuel <;> rfl

lemma decDigitsAux_succ (fuel n : Nat) :
    decDigitsAux (fuel + 1) (n + 1) = decDigitsAux fuel ((n + 1) / 10) ++ [(n + 1) % 10] := by
  simp [decDigitsAux]

lemma decDigitsAux_val (fuel : Nat) : ∀ n, n ≤ fuel → ∀ a : Nat,
    List.foldl (fun x d => x * 10 + d) a (decDigitsAux fuel n) =
      a * 10 ^ (decDigitsAux fuel n).length + n := by
  induction fuel with
  | zero =>
    intro n hn a
    have : n = 0 := Nat.le_zero.mp hn
    subst this
    simp [decDigitsAux]
  | succ fuel ih =>
    intro n hn a
    cases n with
    | zero => simp [decDigitsAux_zero]
    | succ m =>
      have hdiv : (m + 1) / 10 ≤ fuel := by
        have := Nat.div_lt_self (Nat.succ_pos m) (by norm_num : 1 < 10)
        omega
      rw [decDigitsAux_succ, List.foldl_append, List.length_append]
      simp only [List.foldl, List.length_cons, List.length_nil]
      rw [ih _ hdiv a, pow_succ, ← mul_assoc]
      generalize a * 10 ^ (decDigitsAux fuel ((m + 1) / 10)).length = b
      omega

lemma decDigits_val (n : Nat) :
    List.foldl (fun x d => x * 10 + d) 0 (decDigits n) = n := by
  simpa using decDigitsAux_val n n le_rfl 0

lemma decDigits_injective : Function.Injective decDigits := by
  intro m n h
  have hm := decDigits_val m
  have hn := decDigits_val n
  rw [h] at hm
  omega

lemma decDigitsAux_head_ne_zero (fuel : Nat) : ∀ n, 0 < n → n ≤ fuel →
    ∃ d l, decDigitsAux fuel n = d :: l ∧ d ≠ 0 := by
  induction fuel with
  | zero => intro n h0 hn; omega
  | succ fuel ih =>
    intro n h0 hn
    cases n with
    | zero => omega
    | succ m =>
      by_cases hq : (m + 1) / 10 = 0
      · have hlt : m + 1 < 10 := by
          rcases Nat.lt_or_ge (m + 1) 10 with h | h
          · exact h
          · exact absurd hq (by have := Nat.one_le_div_iff (by norm_num : 0 < 10) |>.mpr h; omega)
        refine ⟨(m + 1) % 10, [], ?_, ?_⟩
        · rw [decDigitsAux_succ, hq, decDigitsAux_zero]
          rfl
        · have : (m + 1) % 10 = m + 1 := Nat.mod_eq_of_lt hlt
          omega
      · have hdiv : (m + 1) / 10 ≤ fuel := by
          have := Nat.div_lt_self (Nat.succ_pos m) (by norm_num : 1 < 10)
          omega
        obtain ⟨d, l, heq, hd⟩ := ih ((m + 1) / 10) (Nat.pos_of_ne_zero hq) hdiv
        exact ⟨d, l ++ [(m + 1) % 10], by rw [decDigitsAux_succ, heq]; rfl, hd⟩

lemma decDigits_head_ne_zero (n : Nat) :
    ∀ d, (decDigits n).head? = some d → d ≠ 0 := by
  intro d hd
  cases n with
  | zero => simp [decDigits, decDigitsAux] at hd
  | succ m =>
    obtain ⟨d', l, heq, hd'⟩ :=
      decDigitsAux_head_ne_zero (m + 1) (m + 1) (Nat.succ_pos m) le_rfl
    rw [decDigits, heq] at hd
    simp at hd
    omega

lemma dropWhile_replicate_zero (k : Nat) (l : List Nat)
    (h : ∀ d, l.head? = some d → d ≠ 0) :
    (List.replicate k 0 ++ l).dropWhile (fun d => d == 0) = l := by
  induction k with
  | zero =>
    cases l with
    | nil => rfl
    | cons d t =>
      have hd : d ≠ 0 := h d rfl
      have hb : (d == 0) = false := by simpa using hd
      simp [List.dropWhile, hb]
  | succ k ihk => simpa [List.replicate_succ, List.dropWhile] using ihk

lemma padded_digits_injective (m n : Nat)
    (h : List.replicate (3 - (decDigits m).length) 0 ++ decDigits m =
         List.replicate (3 - (decDigits n).length) 0 ++ decDigits n) :
    m = n := by
  have h2 := congrArg (List.dropWhile (fun d => d == 0)) h
  rw [dropWhile_replicate_zero _ _ (decDigits_head_ne_zero m),
      dropWhile_replicate_zero _ _ (decDigits_head_ne_zero n)] at h2
  exact decDigits_injective h2

lemma decDigitsAux_lt_ten (fuel : Nat) : ∀ n, ∀ d ∈ decDigitsAux fuel n, d < 10 := by
  induction fuel with
  | zero => intro n d hd; simp [decDigitsAux] at hd
  | succ fuel ih =>
    intro n d hd
    cases n with
    | zero => simp [decDigitsAux_zero] at hd
    | succ m =>
      rw [decDigitsAux_succ] at hd
      rcases List.mem_append.mp hd with h | h
      · exact ih _ _ h
      · simp at h
        subst h
        exact Nat.mod_lt _ (by norm_num)

lemma digitChar_inj_fin :
    ∀ a : Fin 10, ∀ b : Fin 10, Nat.digitChar a.val = Nat.digitChar b.val → a = b := by
  decide

lemma map_digitChar_injective : ∀ l1 l2 : List Nat, (∀ d ∈ l1, d < 10) →
    (∀ d ∈ l2, d < 10) → l1.map Nat.digitChar = l2.map Nat.digitChar → l1 = l2 := by
  intro l1
  induction l1 with
  | nil => intro l2 _ _ h; cases l2 with
    | nil => rfl
    | cons b t => simp at h
  | cons a t iht =>
    intro l2 h1 h2 h
    cases l2 with
    | nil => simp at h
    | cons b t2 =>
      simp only [List.map_cons, List.cons.injEq] at h
      have ha : a < 10 := h1 a (by simp)
      have hb : b < 10 := h2 b (by simp)
      have hab : a = b := by
        have := digitChar_inj_fin ⟨a, ha⟩ ⟨b, hb⟩ h.1
        simpa [Fin.ext_iff] using this
      subst hab
      have := iht t2 (fun d hd => h1 d (by simp [hd])) (fun d hd => h2 d (by simp [hd])) h.2
      rw [this]

lemma pad3_injective : Function.Injective pad3 := by
  intro m n h
  have hdata := congrArg String.data h
  simp only [pad3] at hdata
  refine padded_digits_injective m n (map_digitChar_injective _ _ ?_ ?_ hdata)
  · intro d hd
    rcases List.mem_append.mp hd with h' | h'
    · have := List.eq_of_mem_replicate h'
      omega
    · exact decDigitsAux_lt_ten _ _ _ h'
  · intro d hd
    rcases List.mem_append.mp hd with h' | h'
    · have := List.eq_of_mem_replicate h'
      omega
    · exact decDigitsAux_lt_ten _ _ _ h'

lemma ap_pad3_injective : Function.Injective (fun i => "AP-" ++ pad3 (i + 1)) := by
  intro i j h
  have hdata := congrArg String.data h
  simp only [String.data_append] at hdata
  have hp : (pad3 (i + 1)).data = (pad3 (j + 1)).data := List.append_cancel_left hdata
  have : pad3 (i + 1) = pad3 (j + 1) := by
    cases hpi : pad3 (i + 1)
    cases hpj : pad3 (j + 1)
    rw [hpi, hpj] at hp
    simp_all
  have := pad3_injective this
  omega

/-! ### Lemmas: model normalisation -/

lemma replaceChar_C_eq_insertHyphen (l : List Char) :
    replaceChar 'C' ['C', '-'] l = insertHyphenAfterEachC l := by
  induction l with
  | nil => rfl
  | cons c rest ih =>
    by_cases hc : c = 'C'
    · subst hc
      simp [replaceChar, insertHyphenAfterEachC, ih]
    · simp [replaceChar, insertHyphenAfterEachC, hc, ih]

/-! ### Lemmas: grouping by floor -/

lemma floorsFirstSeen_append_singleton (aps : List AP) (ap : AP) :
    floorsFirstSeen (aps ++ [ap]) =
      if floorKey ap ∈ floorsFirstSeen aps then floorsFirstSeen aps
      else floorsFirstSeen aps ++ [floorKey ap] := by
  simp [floorsFirstSeen, List.foldl_append]

lemma mem_floorsFirstSeen_aux (aps : List AP) : ∀ (acc : List String) (k : String),
    (k ∈ aps.foldl
        (fun ks ap => if floorKey ap ∈ ks then ks else ks ++ [floorKey ap]) acc) ↔
      k ∈ acc ∨ ∃ ap ∈ aps, floorKey ap = k := by
  induction aps with
  | nil => intro acc k; simp
  | cons a t ih =>
    intro acc k
    simp only [List.foldl_cons]
    rw [ih]
    by_cases ha : floorKey a ∈ acc
    · simp only [ha, if_true]
      constructor
      · rintro (h | h)
        · exact Or.inl h
        · exact Or.inr (by simpa using Or.inr h)
      · rintro (h | h)
        · exact Or.inl h
        · rcases (by simpa using h : floorKey a = k ∨ ∃ ap ∈ t, floorKey ap = k) with h' | h'
          · exact Or.inl (h' ▸ ha)
          · exact Or.inr h'
    · simp only [ha, if_false]
      constructor
      · rintro (h | h)
        · rcases List.mem_append.mp h with h' | h'
          · exact Or.inl h'
          · simp at h'
            exact Or.inr (by simp [h'])
        · exact Or.inr (by simpa using Or.inr h)
      · rintro (h | h)
        · exact Or.inl (List.mem_append.mpr (Or.inl h))
        · rcases (by simpa using h : floorKey a = k ∨ ∃ ap ∈ t, floorKey ap = k) with h' | h'
          · exact Or.inl (List.mem_append.mpr (Or.inr (by simp [h'])))
          · exact Or.inr h'

lemma mem_floorsFirstSeen (aps : List AP) (k : String) :
    k ∈ floorsFirstSeen aps ↔ ∃ ap ∈ aps, floorKey ap = k := by
  simpa using mem_floorsFirstSeen_aux aps [] k

lemma floorsFirstSeen_nodup_aux (aps : List AP) : ∀ acc : List String, acc.Nodup →
    (aps.foldl (fun ks ap => if floorKey ap ∈ ks then ks else ks ++ [floorKey ap]) acc).Nodup := by
  induction aps with
  | nil => intro acc h; simpa using h
  | cons a t ih =>
    intro acc h
    simp only [List.foldl_cons]
    by_cases ha : floorKey a ∈ acc
    · simpa [ha] using ih acc h
    · refine ih _ ?_
      simp only [ha, if_false]
      rw [List.nodup_append]
      refine ⟨h, List.nodup_singleton _, ?_⟩
      intro x hx hx'
      simp only [List.mem_singleton] at hx'
      subst hx'
      exact ha hx

lemma floorsFirstSeen_nodup (aps : List AP) : (floorsFirstSeen aps).Nodup :=
  floorsFirstSeen_nodup_aux aps [] (List.nodup_nil)

lemma filter_floorKey_eq_nil (aps : List AP) (k : String)
    (h : k ∉ floorsFirstSeen aps) :
    aps.filter (fun ap => floorKey ap == k) = [] := by
  rw [List.filter_eq_nil_iff]
  intro ap hap hk
  exact h ((mem_floorsFirstSeen aps k).mpr ⟨ap, hap, by simpa using hk⟩)

lemma groupStep_spec (pre : List AP) (ap : AP) :
    groupStep ((floorsFirstSeen pre).map
        (fun k => (k, pre.filter (fun a => floorKey a == k)))) ap =
      (floorsFirstSeen (pre ++ [ap])).map
        (fun k => (k, (pre ++ [ap]).filter (fun a => floorKey a == k))) := by
  have hany : (((floorsFirstSeen pre).map
      (fun k => (k, pre.filter (fun a => floorKey a == k)))).any
        (fun p => p.1 = floorKey ap)) = true ↔ floorKey ap ∈ floorsFirstSeen pre := by
    simp [List.any_map, Function.comp, List.any_eq_true]
  by_cases hmem : floorKey ap ∈ floorsFirstSeen pre
  · rw [groupStep, if_pos (hany.mpr hmem)]
    rw [floorsFirstSeen_append_singleton, if_pos hmem, List.map_map]
    refine List.map_congr_left ?_
    intro k _
    simp only [Function.comp_apply, List.filter_append]
    by_cases hk : k = floorKey ap
    · subst hk
      simp [List.filter]
    · have hne : (floorKey ap == k) = false := by simpa using fun h => hk h.symm
      simp [List.filter, hne, hk]
  · rw [groupStep, if_neg (by simpa using fun h => hmem (hany.mp h))]
    rw [floorsFirstSeen_append_singleton, if_neg hmem, List.map_append]
    congr 1
    · refine List.map_congr_left ?_
      intro k hk
      have hkne : k ≠ floorKey ap := fun h => hmem (h ▸ hk)
      have hne : (floorKey ap == k) = false := by simpa using fun h => hkne h.symm
      simp [List.filter_append, List.filter, hne]
    · simp only [List.map_cons, List.map_nil, List.filter_append]
      rw [filter_floorKey_eq_nil pre _ hmem]
      simp [List.filter]

lemma groupByFloor_aux (rest : List AP) : ∀ pre : List AP,
    List.foldl groupStep
        ((floorsFirstSeen pre).map
          (fun k => (k, pre.filter (fun a => floorKey a == k)))) rest =
      (floorsFirstSeen (pre ++ rest)).map
        (fun k => (k, (pre ++ rest).filter (fun a => floorKey a == k))) := by
  induction rest with
  | nil => intro pre; simp
  | cons a t ih =>
    intro pre
    simp only [List.foldl_cons]
    rw [groupStep_spec pre a, ih (pre ++ [a]), List.append_assoc]
    rfl

/-- The grouping loop computes, for each distinct floor name in order of
first appearance, the sublist of records bearing that name. -/
lemma groupByFloor_eq_spec (aps : List AP) :
    groupByFloor aps =
      (floorsFirstSeen aps).map
        (fun k => (k, aps.filter (fun a => floorKey a == k))) := by
  have := groupByFloor_aux aps []
  simpa [groupByFloor, floorsFirstSeen] using this

lemma groupByFloor_keys (aps : List AP) :
    (groupByFloor aps).map Prod.fst = floorsFirstSeen aps := by
  rw [groupByFloor_eq_spec, List.map_map]
  exact List.map_id _

lemma groupByFloor_keys_nodup (aps : List AP) :
    ((groupByFloor aps).map Prod.fst).Nodup := by
  rw [groupByFloor_keys]; exact floorsFirstSeen_nodup aps

lemma groupByFloor_groups (aps : List AP) (g : String × List AP)
    (hg : g ∈ groupByFloor aps) :
    g.2 = aps.filter (fun a => floorKey a == g.1) := by
  rw [groupByFloor_eq_spec] at hg
  obtain ⟨k, _, rfl⟩ := List.mem_map.mp hg
  rfl

/-! ### Lemmas: row building and the per-floor loop -/

lemma buildRow_of_coordNote (c : Nat) (ap : AP) (note : String)
    (h : coordNote ap = .ok note) :
    buildRow c ap = .ok ["AP-" ++ pad3 c,
      normaliseModel (ap.model.getD ""),
      "Internal Omni", "N/A", "N/A", "Hard Ceiling",
      "<insert mounting bracket model>", "<insert mounting adapter model>",
      "No", "N/A", "N/A", "N/A", "N/A", note] := by
  simp [buildRow, h]

lemma buildRow_head (c : Nat) (ap : AP) (row : List String)
    (h : buildRow c ap = .ok row) : row.headD "" = "AP-" ++ pad3 c := by
  cases hc : coordNote ap with
  | error e => simp [buildRow, hc] at h
  | ok note =>
    rw [buildRow_of_coordNote c ap note hc] at h
    injection h with h
    subst h
    rfl

lemma addRows_ok (aps : List AP) : ∀ c rows c', addRows c aps = .ok (rows, c') →
    rows.length = aps.length ∧ c' = c + aps.length ∧
      rows.map (fun r => r.headD "") =
        (List.range aps.length).map (fun i => "AP-" ++ pad3 (c + i)) := by
  induction aps with
  | nil =>
    intro c rows c' h
    simp only [addRows, Except.ok.injEq, Prod.mk.injEq] at h
    simp [← h.1, ← h.2]
  | cons a t ih =>
    intro c rows c' h
    unfold addRows at h
    cases hb : buildRow c a with
    | error e => rw [hb] at h; exact absurd h (by simp)
    | ok row =>
      rw [hb] at h
      cases hr : addRows (c + 1) t with
      | error e => rw [hr] at h; exact absurd h (by simp)
      | ok p =>
        obtain ⟨rows', c2⟩ := p
        rw [hr] at h
        simp only [Except.ok.injEq, Prod.mk.injEq] at h
        obtain ⟨hrows, hc2⟩ := h
        obtain ⟨hlen, hc2', hmap⟩ := ih (c + 1) rows' c2 hr
        subst hrows
        refine ⟨by simp [hlen], by simp only [List.length_cons]; omega, ?_⟩
        rw [List.map_cons, buildRow_head c a row hb, List.length_cons,
            List.range_succ_eq_map, List.map_cons, List.map_map]
        simp only [Nat.add_zero]
        congr 1
        rw [hmap]
        refine List.map_congr_left ?_
        intro i _
        simp only [Function.comp_apply]
        have h10 : c + Nat.succ i = c + 1 + i := by omega
        rw [h10]

lemma addRows_isOk (aps : List AP) : ∀ c,
    (∀ ap ∈ aps, ∃ note, coordNote ap = .ok note) →
    ∃ rows c', addRows c aps = .ok (rows, c') := by
  induction aps with
  | nil => intro c _; exact ⟨[], c, rfl⟩
  | cons a t ih =>
    intro c h
    obtain ⟨note, hnote⟩ := h a (by simp)
    obtain ⟨rows, c', hr⟩ := ih (c + 1) (fun ap hap => h ap (by simp [hap]))
    simp only [addRows, buildRow_of_coordNote c a note hnote, hr]
    exact ⟨_, _, rfl⟩

lemma placements_append_sheet (wb : Workbook) (t : String)
    (rows : List (List String)) :
    placements ⟨wb.sheets ++ [⟨t, HEADER :: rows⟩]⟩ =
      placements wb ++ rows.map (fun r => r.headD "") := by
  simp [placements]

lemma processFloors_nil (st : Workbook × Nat) : processFloors st [] = .ok st := rfl

lemma processFloors_cons (st : Workbook × Nat) (g : String × List AP)
    (gs : List (String × List AP)) :
    processFloors st (g :: gs) =
      match processFloor st g with
      | .error e => .error e
      | .ok st' => processFloors st' gs := rfl

lemma processFloor_ok (wb : Workbook) (c : Nat) (g : String × List AP)
    (wb' : Workbook) (c' : Nat) (h : processFloor (wb, c) g = .ok (wb', c')) :
    ∃ rows, addRows c g.2 = .ok (rows, c') ∧
      wb' = ⟨wb.sheets ++ [⟨normalise_sheet_name g.1, HEADER :: rows⟩]⟩ := by
  unfold processFloor at h
  by_cases hdup : (wb.sheets.any (fun ws => ws.title = normalise_sheet_name g.1)) = true
  · rw [if_pos hdup] at h
    exact absurd h (by simp)
  · rw [if_neg hdup] at h
    cases hr : addRows c g.2 with
    | error e => rw [hr] at h; exact absurd h (by simp)
    | ok p =>
      obtain ⟨rows, c2⟩ := p
      rw [hr] at h
      simp only [Except.ok.injEq, Prod.mk.injEq] at h
      refine ⟨rows, ?_, h.1.symm⟩
      rw [h.2]

lemma range_map_pad3_split (c n1 n2 : Nat) :
    (List.range (n1 + n2)).map (fun i => "AP-" ++ pad3 (c + i)) =
      (List.range n1).map (fun i => "AP-" ++ pad3 (c + i)) ++
        (List.range n2).map (fun i => "AP-" ++ pad3 (c + n1 + i)) := by
  rw [List.range_add, List.map_append, List.map_map]
  congr 1
  refine List.map_congr_left ?_
  intro i _
  simp only [Function.comp_apply]
  have h10 : c + (n1 + i) = c + n1 + i := by omega
  rw [h10]

lemma processFloors_ok (gs : List (String × List AP)) :
    ∀ (wb : Workbook) (c : Nat) (wb' : Workbook) (c' : Nat),
    processFloors (wb, c) gs = .ok (wb', c') →
    wb'.sheets.map Worksheet.title =
        wb.sheets.map Worksheet.title ++ gs.map (fun g => normalise_sheet_name g.1) ∧
      placements wb' = placements wb ++
        (List.range ((gs.map (fun g => g.2.length)).sum)).map
          (fun i => "AP-" ++ pad3 (c + i)) ∧
      c' = c + (gs.map (fun g => g.2.length)).sum := by
  induction gs with
  | nil =>
    intro wb c wb' c' h
    rw [processFloors_nil] at h
    simp only [Except.ok.injEq, Prod.mk.injEq] at h
    simp [← h.1, ← h.2]
  | cons g t ih =>
    intro wb c wb' c' h
    rw [processFloors_cons] at h
    cases hpf : processFloor (wb, c) g with
    | error e => rw [hpf] at h; exact absurd h (by simp)
    | ok st' =>
      obtain ⟨wb2, c2⟩ := st'
      rw [hpf] at h
      obtain ⟨rows, hrows, hwb2⟩ := processFloor_ok wb c g wb2 c2 hpf
      obtain ⟨hlen, hc2, hmap⟩ := addRows_ok g.2 c rows c2 hrows
      obtain ⟨htit, hplc, hc'⟩ := ih wb2 c2 wb' c' h
      subst hwb2
      refine ⟨?_, ?_, ?_⟩
      · rw [htit]
        simp [List.map_append]
      · rw [hplc, hc2, placements_append_sheet, hmap, List.append_assoc]
        simp only [List.map_cons, List.sum_cons]
        rw [range_map_pad3_split]
      · rw [hc', hc2]
        simp only [List.map_cons, List.sum_cons]
        omega

lemma processFloors_dup (gs : List (String × List AP)) :
    ∀ (wb : Workbook) (c : Nat),
    (∀ g ∈ gs, ∀ ap ∈ g.2, ∃ note, coordNote ap = .ok note) →
    (wb.sheets.map Worksheet.title).Nodup →
    ¬ (wb.sheets.map Worksheet.title ++
        gs.map (fun g => normalise_sheet_name g.1)).Nodup →
    ∃ t, processFloors (wb, c) gs = .error (.duplicateName t) := by
  induction gs with
  | nil =>
    intro wb c _ hnd hdup
    exact absurd (by simpa using hnd) hdup
  | cons g t ih =>
    intro wb c hcoord hnd hdup
    by_cases hT : normalise_sheet_name g.1 ∈ wb.sheets.map Worksheet.title
    · refine ⟨normalise_sheet_name g.1, ?_⟩
      obtain ⟨ws, hws, htit⟩ := List.mem_map.mp hT
      have hany : (wb.sheets.any (fun ws => ws.title = normalise_sheet_name g.1)) = true := by
        simp only [List.any_eq_true]
        exact ⟨ws, hws, by simp [htit]⟩
      have hpf : processFloor (wb, c) g =
          .error (.duplicateName (normalise_sheet_name g.1)) := by
        unfold processFloor
        rw [if_pos hany]
      rw [processFloors_cons, hpf]
    · have hany : (wb.sheets.any (fun ws => ws.title = normalise_sheet_name g.1)) = true → False := by
        intro hcontra
        simp only [List.any_eq_true, decide_eq_true_eq] at hcontra
        obtain ⟨ws, hws, htit⟩ := hcontra
        exact hT (List.mem_map.mpr ⟨ws, hws, htit⟩)
      obtain ⟨rows, c2, hrows⟩ :=
        addRows_isOk g.2 c (fun ap hap => hcoord g (by simp) ap hap)
      have hpf : processFloor (wb, c) g =
          .ok (⟨wb.sheets ++ [⟨normalise_sheet_name g.1, HEADER :: rows⟩]⟩, c2) := by
        unfold processFloor
        rw [if_neg hany, hrows]
      rw [processFloors_cons, hpf]
      refine ih _ c2 (fun g' hg' ap hap => hcoord g' (by simp [hg']) ap hap) ?_ ?_
      · simp only [List.map_append, List.map_cons, List.map_nil]
        rw [List.nodup_append]
        refine ⟨hnd, List.nodup_singleton _, ?_⟩
        intro x hx hx'
        simp only [List.mem_singleton] at hx'
        subst hx'
        exact hT hx
      · intro hcontra
        refine hdup ?_
        simp only [List.map_append, List.map_cons, List.map_nil] at hcontra
        rw [List.append_assoc] at hcontra
        simpa using hcontra

/-! ### Claim theorems -/

/-- C2 (counterexample): the raw model `"cisco"` starts with `c` and has no
hyphen, yet the code's `replace` inserts a hyphen after every `C`, giving
`"C-ISC-O"` rather than the single-insertion `"C-ISCO"` the claim states. -/
theorem model_normalisation_counterexample :
    normaliseModel "cisco" = "C-ISC-O" ∧ normaliseModel "cisco" ≠ "C-ISCO" :=
  ⟨by decide, by decide⟩

/-- C2 (amended): for a raw model starting with `c` (case-insensitively) and
containing no hyphen, the AP Model field is the uppercased string with a
hyphen inserted after every occurrence of `C` (not only the leading one);
otherwise it is the raw string uppercased.  The claim's four examples hold. -/
theorem model_normalisation_hyphen_after_every_C :
    (∀ s : String,
      (((pyLower s.data).head? = some 'c' ∧ ¬ '-' ∈ s.data) →
        normaliseModel s = ⟨insertHyphenAfterEachC (pyUpper s.data)⟩) ∧
      (¬ ((pyLower s.data).head? = some 'c' ∧ ¬ '-' ∈ s.data) →
        normaliseModel s = ⟨pyUpper s.data⟩)) ∧
    normaliseModel "c9130" = "C-9130" ∧
    normaliseModel "C9130AXI" = "C-9130AXI" ∧
    normaliseModel "ap-105" = "AP-105" ∧
    normaliseModel "AIR-AP" = "AIR-AP" ∧
    normaliseModel "cisco" = "C-ISC-O" := by
  refine ⟨?_, by decide, by decide, by decide, by decide, by decide⟩
  intro s
  constructor
  · intro h
    rw [normaliseModel, if_pos h, replaceChar_C_eq_insertHyphen]
  · intro h
    rw [normaliseModel, if_neg h]

/-- C2 (witness): the amended theorem applied on both branches. -/
theorem model_normalisation_hyphen_after_every_C_witness :
    normaliseModel "c9130" = ⟨insertHyphenAfterEachC (pyUpper "c9130".data)⟩ ∧
      normaliseModel "ap-105" = ⟨pyUpper "ap-105".data⟩ :=
  ⟨(model_normalisation_hyphen_after_every_C.1 "c9130").1 (by decide),
   (model_normalisation_hyphen_after_every_C.1 "ap-105").2 (by decide)⟩

/-- C4: sheet-name normalisation returns `Floor <integer>` exactly when the
stripped name matches the regex, and otherwise the title-cased string
truncated to at most 31 characters; with the spec's concrete examples
(`1st Floor`, `3rd Floor`, `Lobby`, and a 40-character name cut to its
first 31 characters). -/
theorem sheet_name_normalisation :
    normalise_sheet_name "1st Floor" = "Floor 1" ∧
    normalise_sheet_name "3rd Floor" = "Floor 3" ∧
    normalise_sheet_name "Lobby" = "Lobby" ∧
    normalise_sheet_name ⟨List.replicate 40 'a'⟩ = ⟨'A' :: List.replicate 30 'a'⟩ ∧
    (normalise_sheet_name ⟨List.replicate 40 'a'⟩).length = 31 ∧
    (∀ (name : String) (ds : List Char), matchFloor (pyStrip name.data) = some ds →
      normalise_sheet_name name = "Floor " ++ ⟨ds⟩) ∧
    (∀ name : String, matchFloor (pyStrip name.data) = none →
      normalise_sheet_name name = ⟨(pyTitle name.data).take 31⟩ ∧
        (normalise_sheet_name name).length ≤ 31) := by
  refine ⟨by decide, by decide, by decide, by decide, by decide, ?_, ?_⟩
  · intro name ds h
    simp [normalise_sheet_name, h]
  · intro name h
    have h1 : normalise_sheet_name name = ⟨(pyTitle name.data).take 31⟩ := by
      simp [normalise_sheet_name, h]
    refine ⟨h1, ?_⟩
    rw [h1]
    have h2 : (String.mk ((pyTitle name.data).take 31)).length =
        ((pyTitle name.data).take 31).length := rfl
    rw [h2, List.length_take]
    omega

/-- C4 (witness): both branches of the normalisation theorem at concrete
inputs. -/
theorem sheet_name_normalisation_witness :
    normalise_sheet_name "1st Floor" = "Floor " ++ ⟨['1']⟩ ∧
      (normalise_sheet_name "Lobby" = ⟨(pyTitle "Lobby".data).take 31⟩ ∧
        (normalise_sheet_name "Lobby").length ≤ 31) :=
  ⟨sheet_name_normalisation.2.2.2.2.2.1 "1st Floor" ['1'] (by decide),
   sheet_name_normalisation.2.2.2.2.2.2 "Lobby" (by decide)⟩

/-- C6: an absent or empty `accesspoints` list makes the run end in the
empty-input error with exit code 1, and no workbook is ever produced on
this path. -/
theorem empty_input_exits_without_workbook :
    ∀ aps? : Option (List AP), (aps? = none ∨ aps? = some []) →
      run aps? = .error .emptyInput ∧ exitCode .emptyInput = 1 ∧
        ∀ wb : Workbook, run aps? ≠ .ok wb := by
  intro a h
  have hrun : run a = .error .emptyInput := by
    rcases h with h | h <;> subst h <;> rfl
  refine ⟨hrun, rfl, ?_⟩
  intro wb hc
  rw [hrun] at hc
  exact absurd hc (by simp)

/-- C6 (witness): the theorem at both the absent key and the empty list. -/
theorem empty_input_exits_without_workbook_witness :
    (run none = .error .emptyInput ∧ exitCode .emptyInput = 1) ∧
      (run (some []) = .error .emptyInput ∧ run none ≠ .ok wbLobby) :=
  ⟨⟨(empty_input_exits_without_workbook none (Or.inl rfl)).1,
    (empty_input_exits_without_workbook none (Or.inl rfl)).2.1⟩,
   ⟨(empty_input_exits_without_workbook (some []) (Or.inr rfl)).1,
    (empty_input_exits_without_workbook none (Or.inl rfl)).2.2 wbLobby⟩⟩

/-- C8: a record without a `floorplan_name` key gets the sentinel floor key
`"Unknown Floor"` — the same key it would get if the field were that string
— and lands in the group (hence the sheet) keyed by the sentinel. -/
theorem missing_floorplan_name_sentinel :
    ∀ ap : AP, ap.floorplan_name = none →
      floorKey ap = "Unknown Floor" ∧
      floorKey { ap with floorplan_name := some "Unknown Floor" } = floorKey ap ∧
      ∀ aps : List AP, ap ∈ aps →
        ∃ g ∈ groupByFloor aps, g.1 = "Unknown Floor" ∧ ap ∈ g.2 := by
  intro ap h
  have hk : floorKey ap = "Unknown Floor" := by simp [floorKey, h]
  refine ⟨hk, by simp [floorKey, h], ?_⟩
  intro aps hap
  rw [groupByFloor_eq_spec]
  refine ⟨("Unknown Floor", aps.filter (fun a => floorKey a == "Unknown Floor")),
    ?_, rfl, ?_⟩
  · exact List.mem_map.mpr
      ⟨"Unknown Floor", (mem_floorsFirstSeen aps _).mpr ⟨ap, hap, hk⟩, rfl⟩
  · exact List.mem_filter.mpr ⟨hap, by simp [hk]⟩

/-- C8 (witness): the theorem at a concrete record lacking the field. -/
theorem missing_floorplan_name_sentinel_witness :
    floorKey apNoFloor = "Unknown Floor" ∧
      floorKey { apNoFloor with floorplan_name := some "Unknown Floor" } = floorKey apNoFloor ∧
      ∃ g ∈ groupByFloor [apNoFloor], g.1 = "Unknown Floor" ∧ apNoFloor ∈ g.2 :=
  let h := missing_floorplan_name_sentinel apNoFloor rfl
  ⟨h.1, h.2.1, h.2.2 [apNoFloor] (by simp)⟩

/-! ### The coordinate claims -/

lemma lit_12_34 : (12.34 : ℚ) = (⟨617, 50, by decide, by decide⟩ : ℚ) := by
  rw [Rat.mk'_eq_divInt, Rat.divInt_eq_div]
  norm_num

lemma lit_5_6 : (5.6 : ℚ) = (⟨28, 5, by decide, by decide⟩ : ℚ) := by
  rw [Rat.mk'_eq_divInt, Rat.divInt_eq_div]
  norm_num

/-- C5: a record whose `coordinate_xyz` is exactly `{"x": 12.34, "y": 5.6}`
yields a row whose last (Notes) cell is `"x=12.3, y=5.6"`, each coordinate
rendered to one decimal place; a record without the key yields `""`. -/
theorem notes_round_trip :
    ∀ (c : Nat) (ap : AP),
      (ap.coordinate_xyz = some (.jobj [("x", (12.34 : ℚ)), ("y", (5.6 : ℚ))]) →
        ∃ row, buildRow c ap = .ok row ∧ row.getLast? = some "x=12.3, y=5.6") ∧
      (ap.coordinate_xyz = none →
        ∃ row, buildRow c ap = .ok row ∧ row.getLast? = some "") := by
  intro c ap
  obtain ⟨mo, fl, co⟩ := ap
  constructor
  · intro h
    replace h : co = some (.jobj [("x", (12.34 : ℚ)), ("y", (5.6 : ℚ))]) := h
    subst h
    have hnote : coordNote
        ⟨mo, fl, some (.jobj [("x", (12.34 : ℚ)), ("y", (5.6 : ℚ))])⟩ =
          .ok "x=12.3, y=5.6" := by
      rw [lit_12_34, lit_5_6]
      rfl
    exact ⟨_, buildRow_of_coordNote c _ _ hnote, rfl⟩
  · intro h
    replace h : co = none := h
    subst h
    exact ⟨_, buildRow_of_coordNote c _ "" rfl, rfl⟩

/-- C5 (witness): the theorem at a concrete record with those coordinates
and at a concrete record without the key. -/
theorem notes_round_trip_witness :
    (∃ row, buildRow 1 apCoords = .ok row ∧ row.getLast? = some "x=12.3, y=5.6") ∧
      (∃ row, buildRow 2 apLobby = .ok row ∧ row.getLast? = some "") :=
  ⟨(notes_round_trip 1 apCoords).1 rfl, (notes_round_trip 2 apLobby).2 rfl⟩

/-- C9 (counterexample): a record lacking `model` whose coordinate object
has neither `x` nor `y` — row building does not succeed, it raises the
coordinate-formatting `TypeError`, refuting the unconditional claim. -/
theorem missing_model_counterexample :
    apBadCoord.model = none ∧
      buildRow 1 apBadCoord =
        .error "TypeError: unsupported format string passed to NoneType.__format__" :=
  ⟨rfl, rfl⟩

/-- C9 (amended): for a record lacking `model`, the AP Model value computed
is `""`, and row building succeeds with `""` in the AP Model column
whenever the Notes computation itself succeeds. -/
theorem missing_model_row_building :
    ∀ (c : Nat) (ap : AP), ap.model = none →
      normaliseModel (ap.model.getD "") = "" ∧
      ∀ note, coordNote ap = .ok note →
        ∃ row, buildRow c ap = .ok row ∧ row[1]? = some "" := by
  intro c ap h
  have hm : normaliseModel (ap.model.getD "") = "" := by rw [h]; decide
  refine ⟨hm, ?_⟩
  intro note hnote
  refine ⟨_, buildRow_of_coordNote c ap note hnote, ?_⟩
  simp [hm]

/-- C9 (witness): the amended theorem at a concrete record lacking `model`
whose Notes computation succeeds. -/
theorem missing_model_row_building_witness :
    normaliseModel (apOnlyFloor.model.getD "") = "" ∧
      ∃ row, buildRow 5 apOnlyFloor = .ok row ∧ row[1]? = some "" :=
  let h := missing_model_row_building 5 apOnlyFloor rfl
  ⟨h.1, h.2 "" rfl⟩

/-- C10: a present-but-null or present-but-empty `coordinate_xyz` yields a
successful row with empty Notes; a coordinate-formatting failure can only
arise from a non-empty object lacking `x` or `y`; and row building fails
exactly when the Notes computation does. -/
theorem coordinate_edge_cases :
    ∀ (c : Nat) (ap : AP),
      ((ap.coordinate_xyz = some JCoord.jnull ∨
          ap.coordinate_xyz = some (JCoord.jobj [])) →
        ∃ row, buildRow c ap = .ok row ∧ row.getLast? = some "") ∧
      (∀ e, coordNote ap = .error e →
        ∃ fs, ap.coordinate_xyz = some (.jobj fs) ∧ fs ≠ [] ∧
          (lookupField "x" fs = none ∨ lookupField "y" fs = none)) ∧
      (∀ e, buildRow c ap = .error e ↔ coordNote ap = .error e) := by
  intro c ap
  refine ⟨?_, ?_, ?_⟩
  · intro h
    obtain ⟨mo, fl, co⟩ := ap
    have hnote : coordNote ⟨mo, fl, co⟩ = .ok "" := by
      rcases h with h | h
      · replace h : co = some JCoord.jnull := h
        subst h
        rfl
      · replace h : co = some (JCoord.jobj []) := h
        subst h
        rfl
    exact ⟨_, buildRow_of_coordNote c _ "" hnote, rfl⟩
  · intro e he
    obtain ⟨mo, fl, co⟩ := ap
    cases co with
    | none => exact absurd he (by simp [coordNote, coordFields])
    | some j =>
      cases j with
      | jnull => exact absurd he (by simp [coordNote, coordFields])
      | jobj fs =>
        cases fs with
        | nil => exact absurd he (by simp [coordNote, coordFields])
        | cons p rest =>
          refine ⟨p :: rest, rfl, by simp, ?_⟩
          cases hx : lookupField "x" (p :: rest) with
          | none => exact Or.inl rfl
          | some vx =>
            cases hy : lookupField "y" (p :: rest) with
            | none => exact Or.inr rfl
            | some vy =>
              have hok : coordNote ⟨mo, fl, some (.jobj (p :: rest))⟩ =
                  .ok ("x=" ++ format1 vx ++ ", y=" ++ format1 vy) := by
                simp [coordNote, coordFields, hx, hy]
              rw [hok] at he
              exact absurd he (by simp)
  · intro e
    constructor
    · intro h
      cases hc : coordNote ap with
      | error e2 =>
        have hbr : buildRow c ap = .error e2 := by unfold buildRow; rw [hc]
        rw [hbr] at h
        injection h with h2
        rw [h2]
      | ok note =>
        rw [buildRow_of_coordNote c ap note hc] at h
        exact absurd h (by simp)
    · intro h
      unfold buildRow
      rw [h]

/-- C10 (witness): the theorem at a concrete null-coordinate record, with
the error characterisation exercised on a concrete malformed record. -/
theorem coordinate_edge_cases_witness :
    (∃ row, buildRow 2 ⟨none, none, some JCoord.jnull⟩ = .ok row ∧
        row.getLast? = some "") ∧
      ∃ fs, apBadCoord.coordinate_xyz = some (.jobj fs) ∧ fs ≠ [] ∧
        (lookupField "x" fs = none ∨ lookupField "y" fs = none) :=
  ⟨(coordinate_edge_cases 2 ⟨none, none, some JCoord.jnull⟩).1 (Or.inl rfl),
   (coordinate_edge_cases 1 apBadCoord).2.1
     "TypeError: unsupported format string passed to NoneType.__format__" rfl⟩

/-- C1: on a successful run, the placement-number column across all sheets
in workbook order is exactly `AP-` followed by the zero-padded 3-digit
counter values 1, 2, 3, …: globally unique, increasing by 1, starting at
`AP-001`, never reset at sheet boundaries. -/
theorem placement_numbers_globally_sequential :
    ∀ (aps : List AP) (wb : Workbook), buildWorkbook aps = .ok wb →
      placements wb =
          (List.range (placements wb).length).map (fun i => "AP-" ++ pad3 (i + 1)) ∧
        (placements wb).Nodup ∧
        (placements wb ≠ [] → (placements wb).headD "" = "AP-001") := by
  intro aps wb h
  unfold buildWorkbook at h
  cases hpf : processFloors (⟨[]⟩, 1) (groupByFloor aps) with
  | error e => rw [hpf] at h; exact absurd h (by simp)
  | ok st =>
    obtain ⟨wb0, cfin⟩ := st
    rw [hpf] at h
    simp only [Except.ok.injEq] at h
    subst h
    obtain ⟨_, hplc, _⟩ := processFloors_ok (groupByFloor aps) ⟨[]⟩ 1 wb0 cfin hpf
    have hplc' : placements wb0 =
        (List.range (((groupByFloor aps).map (fun g => g.2.length)).sum)).map
          (fun i => "AP-" ++ pad3 (i + 1)) := by
      rw [hplc, show placements (⟨[]⟩ : Workbook) = [] from rfl, List.nil_append]
      refine List.map_congr_left ?_
      intro i _
      rw [Nat.add_comm 1 i]
    refine ⟨?_, ?_, ?_⟩
    · rw [hplc']
      simp [List.length_map, List.length_range]
    · rw [hplc']
      exact (List.nodup_range _).map ap_pad3_injective
    · intro hne
      rw [hplc'] at hne ⊢
      cases hS : ((groupByFloor aps).map (fun g => g.2.length)).sum with
      | zero => rw [hS] at hne; simp at hne
      | succ n =>
        rw [List.range_succ_eq_map, List.map_cons, List.headD_cons]
        decide

/-- C1 (witness): the theorem at a one-record input and its workbook. -/
theorem placement_numbers_globally_sequential_witness :
    placements wbLobby =
        (List.range (placements wbLobby).length).map (fun i => "AP-" ++ pad3 (i + 1)) ∧
      (placements wbLobby).Nodup ∧ (placements wbLobby).headD "" = "AP-001" :=
  let h := placement_numbers_globally_sequential [apLobby] wbLobby rfl
  ⟨h.1, h.2.1, h.2.2 (by decide)⟩

/-- C3: grouping yields, for each distinct raw floor name in order of first
appearance, the ordered sublist of records with that name (one group per
distinct name, keys without duplicates); on a successful run the workbook
has exactly one sheet per group, with the groups' normalised titles in
discovery order, and the sheet count equals the number of distinct floor
names. -/
theorem grouping_and_sheets_per_floor :
    (∀ aps : List AP, groupByFloor aps =
        (floorsFirstSeen aps).map
          (fun k => (k, aps.filter (fun a => floorKey a == k)))) ∧
      (∀ aps : List AP, ((groupByFloor aps).map Prod.fst).Nodup) ∧
      (∀ (aps : List AP) (wb : Workbook), buildWorkbook aps = .ok wb →
        wb.sheets.map Worksheet.title =
            (groupByFloor aps).map (fun g => normalise_sheet_name g.1) ∧
          wb.sheets.length = (floorsFirstSeen aps).length) := by
  refine ⟨groupByFloor_eq_spec, groupByFloor_keys_nodup, ?_⟩
  intro aps wb h
  unfold buildWorkbook at h
  cases hpf : processFloors (⟨[]⟩, 1) (groupByFloor aps) with
  | error e => rw [hpf] at h; exact absurd h (by simp)
  | ok st =>
    obtain ⟨wb0, cfin⟩ := st
    rw [hpf] at h
    simp only [Except.ok.injEq] at h
    subst h
    obtain ⟨htit, _, _⟩ := processFloors_ok (groupByFloor aps) ⟨[]⟩ 1 wb0 cfin hpf
    have htit' : wb0.sheets.map Worksheet.title =
        (groupByFloor aps).map (fun g => normalise_sheet_name g.1) := by
      simpa using htit
    refine ⟨htit', ?_⟩
    have h1 := congrArg List.length htit'
    simp only [List.length_map] at h1
    have h2 := congrArg List.length (groupByFloor_keys aps)
    simp only [List.length_map] at h2
    rw [h1, h2]

/-- C3 (witness): the successful-run component at a one-record input. -/
theorem grouping_and_sheets_per_floor_witness :
    wbLobby.sheets.map Worksheet.title =
        (groupByFloor [apLobby]).map (fun g => normalise_sheet_name g.1) ∧
      wbLobby.sheets.length = (floorsFirstSeen [apLobby]).length :=
  grouping_and_sheets_per_floor.2.2 [apLobby] wbLobby rfl

/-- C7 (counterexample): the distinct floor names `"A"` and `"a"` normalise
to the same sheet title, yet on this input the run fails with the
coordinate-formatting `TypeError` of an earlier row, not with a
`DuplicateNameError` — the later sheet creation is never reached. -/
theorem duplicate_sheet_name_counterexample :
    ("A" : String) ≠ "a" ∧
      normalise_sheet_name "A" = normalise_sheet_name "a" ∧
      floorKey ⟨none, some "A", some (.jobj [("z", qOne)])⟩ = "A" ∧
      floorKey ⟨none, some "a", none⟩ = "a" ∧
      buildWorkbook apsClash =
        .error (.typeError
          "TypeError: unsupported format string passed to NoneType.__format__") :=
  ⟨by decide, by decide, rfl, rfl, rfl⟩

/-- C7 (amended): on an input whose rows all format their coordinate notes
successfully, two distinct raw floor names normalising to the same sheet
title make the workbook build fail with the spreadsheet library's
`DuplicateNameError`; the tool performs no collision check of its own. -/
theorem duplicate_sheet_name_failure :
    ∀ (aps : List AP) (f1 f2 : String),
      (∀ ap ∈ aps, ∃ note, coordNote ap = .ok note) →
      (∃ ap ∈ aps, floorKey ap = f1) →
      (∃ ap ∈ aps, floorKey ap = f2) →
      f1 ≠ f2 →
      normalise_sheet_name f1 = normalise_sheet_name f2 →
      ∃ t, buildWorkbook aps = .error (.duplicateName t) := by
  intro aps f1 f2 hcoord h1 h2 hne hnorm
  have hf1 : f1 ∈ floorsFirstSeen aps := (mem_floorsFirstSeen aps f1).mpr h1
  have hf2 : f2 ∈ floorsFirstSeen aps := (mem_floorsFirstSeen aps f2).mpr h2
  have hdup : ¬ ((groupByFloor aps).map (fun g => normalise_sheet_name g.1)).Nodup := by
    intro hnd
    have hmap : (groupByFloor aps).map (fun g => normalise_sheet_name g.1) =
        (floorsFirstSeen aps).map normalise_sheet_name := by
      rw [groupByFloor_eq_spec, List.map_map]
      rfl
    rw [hmap] at hnd
    exact hne (List.inj_on_of_nodup_map hnd hf1 hf2 hnorm)
  have hcoord' : ∀ g ∈ groupByFloor aps, ∀ ap ∈ g.2, ∃ note, coordNote ap = .ok note := by
    intro g hg ap hap
    have hflt := groupByFloor_groups aps g hg
    rw [hflt] at hap
    exact hcoord ap (List.mem_of_mem_filter hap)
  obtain ⟨t, ht⟩ :=
    processFloors_dup (groupByFloor aps) ⟨[]⟩ 1 hcoord' (by simp) (by simpa using hdup)
  refine ⟨t, ?_⟩
  unfold buildWorkbook
  rw [ht]

/-- C7 (witness): the amended theorem on the colliding floors `"A"`, `"a"`
with well-formed rows. -/
theorem duplicate_sheet_name_failure_witness :
    ∃ t, buildWorkbook apsAa = .error (.duplicateName t) :=
  duplicate_sheet_name_failure apsAa "A" "a"
    (by
      intro ap hap
      simp only [apsAa, List.mem_cons, List.not_mem_nil, or_false] at hap
      rcases hap with rfl | rfl <;> exact ⟨"", rfl⟩)
    ⟨⟨none, some "A", none⟩, by simp [apsAa], rfl⟩
    ⟨⟨none, some "a", none⟩, by simp [apsAa], rfl⟩
    (by decide) (by decide)
